import Mathlib

/-!
Shallow embedding of the todo store of `main.go` (package `main` of
paulsmith/htmx-go-example), together with theorems checking the
specification's claims about it.

Modelling conventions:
* `time.Time` values are modelled as `Nat`; the zero value `time.Time{}`
  is `0`, and each mutating operation takes the current clock reading as
  an explicit `now : Nat` argument standing for `time.Now()`.
* `uint64` is `Nat` with reduction `% 2 ^ 64` where the source can
  overflow (the `atomic.AddUint64` increment in `createTodo`).
* Go pointer fields `*bool` / `*string` become `Option Bool` /
  `Option String`.
* The package-level counter `latestTodoId` is carried as a field of the
  service state, since it is the only piece of mutable package state the
  store operations touch.
* Mutating methods on `*inMemTodoService` become functions from the state
  to a pair of the new state and the returned value, so that the state
  after a failed call is still visible (Go returns the error while the
  receiver keeps whatever mutations already happened).
-/

/-- The `todo` record of `main.go`. -/
structure todo where
  Id : Nat
  Text : String
  CreatedAt : Nat
  Done : Bool
  DoneAt : Nat
  Deleted : Bool
  DeletedAt : Nat
deriving DecidableEq, Repr

/-- The `todoFilter` struct: an optional `done` criterion. -/
structure todoFilter where
  done : Option Bool
deriving DecidableEq, Repr

/-- The `todoUpdate` struct: optional new text and optional new done flag. -/
structure todoUpdate where
  text : Option String
  done : Option Bool
deriving DecidableEq, Repr

/-- The in-memory service state: the `todos` slice of `inMemTodoService`
plus the package-level `latestTodoId` counter. -/
structure inMemTodoService where
  todos : List todo
  latestTodoId : Nat
deriving DecidableEq, Repr

/-- Go's `unicode.IsSpace` restricted to the Unicode White_Space code
points (which is exactly what `unicode.IsSpace` reports). -/
def goIsSpace (c : Char) : Bool :=
  let n := c.toNat
  (0x9 ≤ n && n ≤ 0xD) || n = 0x20 || n = 0x85 || n = 0xA0 || n = 0x1680 ||
  (0x2000 ≤ n && n ≤ 0x200A) || n = 0x2028 || n = 0x2029 || n = 0x202F ||
  n = 0x205F || n = 0x3000

/-- `strings.TrimSpace`: drop leading and trailing White_Space runes. -/
def trimSpace (s : String) : String :=
  ⟨((s.toList.dropWhile goIsSpace).reverse.dropWhile goIsSpace).reverse⟩

/-- The loop body of `inMemTodoService.getTodoById`: linear scan for the
first record with the given id, error if none. -/
def getTodoByIdList : List todo → Nat → Except String todo
  | [], id => Except.error ("todo " ++ toString id ++ " not found")
  | t :: ts, id => if t.Id = id then Except.ok t else getTodoByIdList ts id

/-- `inMemTodoService.getTodoById`. -/
def getTodoById (s : inMemTodoService) (id : Nat) : Except String todo :=
  getTodoByIdList s.todos id

/-- The loop of `inMemTodoService.findTodos`: skip deleted records; when
`filter.done` is set keep records whose `Done` equals it, otherwise keep
every remaining record, in order. -/
def findTodosList : List todo → todoFilter → List todo
  | [], _ => []
  | t :: ts, f =>
    if t.Deleted then findTodosList ts f
    else
      match f.done with
      | some d => if t.Done = d then t :: findTodosList ts f else findTodosList ts f
      | none => t :: findTodosList ts f

/-- `inMemTodoService.findTodos` (the error result is always `nil` in the
source, so the model returns the list directly). -/
def findTodos (s : inMemTodoService) (f : todoFilter) : List todo :=
  findTodosList s.todos f

/-- `inMemTodoService.createTodo`: trim the text, reject if empty,
otherwise assign `atomic.AddUint64(&latestTodoId, 1)` as the id, reset
the flags and timestamps, and append. -/
def createTodo (s : inMemTodoService) (txt : String) (now : Nat) :
    inMemTodoService × Except String todo :=
  let txt2 := trimSpace txt
  if txt2 = "" then (s, Except.error "todo text is required")
  else
    let newId := (s.latestTodoId + 1) % 2 ^ 64
    let t : todo :=
      { Id := newId, Text := txt2, CreatedAt := now, Done := false,
        DoneAt := 0, Deleted := false, DeletedAt := 0 }
    ({ todos := s.todos ++ [t], latestTodoId := newId }, Except.ok t)

/-- The body of the matching branch of `inMemTodoService.updateTodo`:
overwrite the text when `update.text` is set, then the done flag when
`update.done` is set, stamping `DoneAt` whenever the new done value is
`true` (the source guards the stamp only on `*update.done`, not on the
previous `Done` value). -/
def applyUpdate (t : todo) (u : todoUpdate) (now : Nat) : todo :=
  let t1 := match u.text with
    | some txt => { t with Text := txt }
    | none => t
  match u.done with
  | some d => if d then { t1 with Done := d, DoneAt := now } else { t1 with Done := d }
  | none => t1

/-- The loop of `inMemTodoService.updateTodo`: find the first record with
the given id, update it in place, and return the updated list and
record, or `none` when the id is absent. -/
def updateTodoList : List todo → Nat → todoUpdate → Nat → Option (List todo × todo)
  | [], _, _, _ => none
  | t :: ts, id, u, now =>
    if t.Id = id then some (applyUpdate t u now :: ts, applyUpdate t u now)
    else
      match updateTodoList ts id u now with
      | some (ts2, r) => some (t :: ts2, r)
      | none => none

/-- `inMemTodoService.updateTodo`. -/
def updateTodo (s : inMemTodoService) (id : Nat) (u : todoUpdate) (now : Nat) :
    inMemTodoService × Except String todo :=
  match updateTodoList s.todos id u now with
  | some (ts2, r) => ({ s with todos := ts2 }, Except.ok r)
  | none => (s, Except.error ("todo " ++ toString id ++ " not found"))

/-- The loop of `inMemTodoService.deleteTodo`: mark the first record with
the given id as deleted, stamping `DeletedAt`; `none` if absent. -/
def deleteTodoList : List todo → Nat → Nat → Option (List todo)
  | [], _, _ => none
  | t :: ts, id, now =>
    if t.Id = id then some ({ t with Deleted := true, DeletedAt := now } :: ts)
    else
      match deleteTodoList ts id now with
      | some ts2 => some (t :: ts2)
      | none => none

/-- `inMemTodoService.deleteTodo`. -/
def deleteTodo (s : inMemTodoService) (id : Nat) (now : Nat) :
    inMemTodoService × Option String :=
  match deleteTodoList s.todos id now with
  | some ts2 => ({ s with todos := ts2 }, none)
  | none => (s, some ("todo " ++ toString id ++ " not found"))

/-- The inner loop of `inMemTodoService.deleteTodos` over the requested
ids for one record: mark the record when its id matches, and increment
the `deleted` counter on EVERY iteration (the increment sits outside the
`if` in the source). Returns the record after the loop and the number of
increments. -/
def deleteTodosInner : todo → List Nat → Nat → todo × Nat
  | t, [], _ => (t, 0)
  | t, id :: ids, now =>
    let t1 := if t.Id = id then { t with Deleted := true, DeletedAt := now } else t
    let (t2, c) := deleteTodosInner t1 ids now
    (t2, c + 1)

/-- The outer loop of `inMemTodoService.deleteTodos` over the records. -/
def deleteTodosLoop : List todo → List Nat → Nat → List todo × Nat
  | [], _, _ => ([], 0)
  | t :: ts, ids, now =>
    let (t2, c) := deleteTodosInner t ids now
    let (ts2, c2) := deleteTodosLoop ts ids now
    (t2 :: ts2, c + c2)

/-- `inMemTodoService.deleteTodos`: run the nested marking loops, then
fail when the `deleted` counter differs from `len(ids)` (the marking is
kept either way, matching the in-place mutation of the source). -/
def deleteTodos (s : inMemTodoService) (ids : List Nat) (now : Nat) :
    inMemTodoService × Option String :=
  let (ts2, deleted) := deleteTodosLoop s.todos ids now
  ({ s with todos := ts2 },
   if deleted ≠ ids.length then
     some ("could not delete all todos (" ++ toString deleted ++ " of " ++
       toString ids.length ++ ")")
   else none)

/-- The predicate the specification ascribes to `find`: written from the
spec's words, to be compared with `findTodosList` translated from the
source. -/
def specFindKeep (f : todoFilter) (t : todo) : Bool :=
  !t.Deleted && (match f.done with | some d => t.Done == d | none => true)

theorem findTodosList_eq_filter (l : List todo) (f : todoFilter) :
    findTodosList l f = l.filter (specFindKeep f) := by
  induction l with
  | nil => rfl
  | cons t ts ih =>
    by_cases hd : t.Deleted
    · simp [findTodosList, hd, specFindKeep, List.filter, ih]
    · cases hf : f.done with
      | none => simp [findTodosList, hd, hf, specFindKeep, List.filter, ih]
      | some d =>
        by_cases hdone : t.Done = d
        · have hb : (t.Done == d) = true := beq_iff_eq.mpr hdone
          simp [findTodosList, hd, hf, hdone, specFindKeep, List.filter, ih, hb]
        · have hb : (t.Done == d) = false := beq_eq_false_iff_ne.mpr hdone
          simp [findTodosList, hd, hf, hdone, specFindKeep, List.filter, ih, hb]

/-- C1: `find(filter)` returns exactly the records that are not
soft-deleted and, when the filter's `done` field is set, whose `Done`
flag equals it, in original insertion order (it is the stable filter of
the stored list by that predicate); in particular `find` with an unset
filter never returns a record whose `Deleted` flag is true. -/
theorem find_returns_exactly_matching (s : inMemTodoService) (f : todoFilter) :
    findTodos s f = s.todos.filter (specFindKeep f) ∧
    (∀ t ∈ findTodos s { done := none }, t.Deleted = false) := by
  constructor
  · exact findTodosList_eq_filter s.todos f
  · intro t ht
    rw [show findTodos s { done := none } = findTodosList s.todos { done := none } from rfl,
      findTodosList_eq_filter] at ht
    have := List.of_mem_filter ht
    simpa [specFindKeep] using this

/-- C2: for every input text whose trimmed form is non-empty, `create`
succeeds: the stored record has the trimmed text, `Done=false`,
`CreatedAt=now`, `Deleted=false`, zero `DoneAt`/`DeletedAt`, and a fresh
id `latestTodoId + 1` that (absent `uint64` wraparound, and given that
every stored id came from the counter) is strictly greater than every
previously assigned identifier; the record is appended to the
collection. -/
theorem createTodo_valid_text_succeeds (s : inMemTodoService) (txt : String) (now : Nat)
    (hne : trimSpace txt ≠ "")
    (hlt : s.latestTodoId + 1 < 2 ^ 64)
    (hids : ∀ u ∈ s.todos, u.Id ≤ s.latestTodoId) :
    ∃ t : todo,
      createTodo s txt now = ({ todos := s.todos ++ [t], latestTodoId := t.Id }, Except.ok t) ∧
      t.Text = trimSpace txt ∧ t.Done = false ∧ t.CreatedAt = now ∧
      t.Deleted = false ∧ t.DoneAt = 0 ∧ t.DeletedAt = 0 ∧
      t.Id = s.latestTodoId + 1 ∧
      ∀ u ∈ s.todos, u.Id < t.Id := by
  refine ⟨{ Id := (s.latestTodoId + 1) % 2 ^ 64, Text := trimSpace txt,
            CreatedAt := now, Done := false, DoneAt := 0, Deleted := false,
            DeletedAt := 0 }, ?_⟩
  have hmod : (s.latestTodoId + 1) % 2 ^ 64 = s.latestTodoId + 1 := Nat.mod_eq_of_lt hlt
  refine ⟨?_, rfl, rfl, rfl, rfl, rfl, rfl, hmod, ?_⟩
  · simp [createTodo, hne]
  · intro u hu
    have := hids u hu
    simp only [hmod]
    omega

/-- Witness for C2 at the spec's example: creating with text
`"  Buy milk  "` in an empty store stores text `"Buy milk"`. -/
theorem createTodo_valid_text_succeeds_witness :
    ∃ t : todo,
      createTodo { todos := [], latestTodoId := 0 } "  Buy milk  " 1 =
        ({ todos := [] ++ [t], latestTodoId := t.Id }, Except.ok t) ∧
      t.Text = trimSpace "  Buy milk  " ∧ t.Done = false ∧ t.CreatedAt = 1 ∧
      t.Deleted = false ∧ t.DoneAt = 0 ∧ t.DeletedAt = 0 ∧
      t.Id = 0 + 1 ∧
      ∀ u ∈ ({ todos := [], latestTodoId := 0 } : inMemTodoService).todos, u.Id < t.Id :=
  createTodo_valid_text_succeeds { todos := [], latestTodoId := 0 } "  Buy milk  " 1
    (by decide) (by decide) (by simp)

/-- C3: for every input text that trims to the empty string, `create`
fails with the validation error and the service state is exactly what it
was before the call. -/
theorem createTodo_empty_text_fails (s : inMemTodoService) (txt : String) (now : Nat)
    (he : trimSpace txt = "") :
    createTodo s txt now = (s, Except.error "todo text is required") := by
  simp [createTodo, he]

/-- Witness for C3 at the spec's example: creating with text `"   "`
fails and leaves the collection unchanged. -/
theorem createTodo_empty_text_fails_witness :
    createTodo { todos := [], latestTodoId := 0 } "   " 1 =
      ({ todos := [], latestTodoId := 0 }, Except.error "todo text is required") :=
  createTodo_empty_text_fails { todos := [], latestTodoId := 0 } "   " 1 (by decide)

theorem getTodoByIdList_error_iff (l : List todo) (id : Nat) :
    (∃ e, getTodoByIdList l id = Except.error e) ↔ ∀ t ∈ l, t.Id ≠ id := by
  induction l with
  | nil => simp [getTodoByIdList]
  | cons t ts ih =>
    by_cases h : t.Id = id
    · simp only [getTodoByIdList, h, if_true]
      constructor
      · rintro ⟨e, he⟩
        cases he
      · intro hall
        exact absurd h (hall t (List.mem_cons_self t ts))
    · simpa [getTodoByIdList, h] using ih

theorem getTodoByIdList_mem (l : List todo) (id : Nat) (t : todo)
    (hnd : (l.map todo.Id).Nodup) (hmem : t ∈ l) (hid : t.Id = id) :
    getTodoByIdList l id = Except.ok t := by
  induction l with
  | nil => cases hmem
  | cons u us ih =>
    rcases List.mem_cons.mp hmem with heq | htail
    · subst heq
      simp [getTodoByIdList, hid]
    · by_cases h : u.Id = id
      · exfalso
        have hnotin : u.Id ∉ us.map todo.Id := (List.nodup_cons.mp (by simpa using hnd)).1
        exact hnotin (by
          rw [h, ← hid]
          exact List.mem_map_of_mem todo.Id htail)
      · simp only [getTodoByIdList, h, if_false]
        exact ih (List.nodup_cons.mp (by simpa using hnd)).2 htail

/-- C5: `getById` fails exactly when no record with the given id exists
in storage, and it does NOT exclude soft-deleted records: whenever a
record with the given id is stored (ids being unique), it is returned
successfully even if its `Deleted` flag is true — asymmetric with
`find`, which hides deleted records. -/
theorem getTodoById_found_iff_stored (s : inMemTodoService) (id : Nat) :
    ((∃ e, getTodoById s id = Except.error e) ↔ ∀ t ∈ s.todos, t.Id ≠ id) ∧
    (∀ t : todo, (s.todos.map todo.Id).Nodup → t ∈ s.todos → t.Id = id →
      getTodoById s id = Except.ok t) := by
  constructor
  · exact getTodoByIdList_error_iff s.todos id
  · intro t hnd hmem hid
    exact getTodoByIdList_mem s.todos id t hnd hmem hid

/-- Witness for C5: a store whose only record (id 1) is soft-deleted;
`getById 1` still returns it. -/
theorem getTodoById_found_iff_stored_witness :
    getTodoById { todos := [{ Id := 1, Text := "a", CreatedAt := 0, Done := false,
                              DoneAt := 0, Deleted := true, DeletedAt := 3 }],
                  latestTodoId := 1 } 1 =
      Except.ok { Id := 1, Text := "a", CreatedAt := 0, Done := false,
                  DoneAt := 0, Deleted := true, DeletedAt := 3 } :=
  (getTodoById_found_iff_stored
      { todos := [{ Id := 1, Text := "a", CreatedAt := 0, Done := false,
                    DoneAt := 0, Deleted := true, DeletedAt := 3 }],
        latestTodoId := 1 } 1).2
    { Id := 1, Text := "a", CreatedAt := 0, Done := false,
      DoneAt := 0, Deleted := true, DeletedAt := 3 }
    (by simp) (by simp) rfl

theorem deleteTodoList_found (l : List todo) (id : Nat) (now : Nat)
    (h : ∃ t ∈ l, t.Id = id) :
    ∃ ts2, deleteTodoList l id now = some ts2 ∧
      ∃ t2 ∈ ts2, t2.Id = id ∧ t2.Deleted = true ∧ t2.DeletedAt = now := by
  induction l with
  | nil => simp at h
  | cons t ts ih =>
    by_cases hh : t.Id = id
    · refine ⟨{ t with Deleted := true, DeletedAt := now } :: ts, ?_, ?_⟩
      · simp [deleteTodoList, hh]
      · exact ⟨{ t with Deleted := true, DeletedAt := now }, by simp, hh, rfl, rfl⟩
    · obtain ⟨u, hu, huid⟩ := h
      rcases List.mem_cons.mp hu with heq | htail
      · exact absurd (heq ▸ huid) hh
      · obtain ⟨ts2, hts2, t2, ht2, h2⟩ := ih ⟨u, htail, huid⟩
        refine ⟨t :: ts2, ?_, t2, by simp [ht2], h2⟩
        simp [deleteTodoList, hh, hts2]

/-- C8: `delete` is idempotent from the caller's view: for every id that
has a record in storage — regardless of that record's prior `Deleted`
flag, so also for an already-deleted id — `delete` succeeds (returns no
error) and the store afterwards holds a record with that id marked
`Deleted=true` with `DeletedAt` stamped. -/
theorem deleteTodo_succeeds_when_stored (s : inMemTodoService) (id : Nat) (now : Nat)
    (h : ∃ t ∈ s.todos, t.Id = id) :
    (deleteTodo s id now).2 = none ∧
    ∃ t2 ∈ (deleteTodo s id now).1.todos, t2.Id = id ∧ t2.Deleted = true ∧
      t2.DeletedAt = now := by
  obtain ⟨ts2, hts2, hex⟩ := deleteTodoList_found s.todos id now h
  constructor
  · simp [deleteTodo, hts2]
  · simpa [deleteTodo, hts2] using hex

/-- Witness for C8: deleting id 1 when the stored record with id 1 is
already deleted still succeeds. -/
theorem deleteTodo_succeeds_when_stored_witness :
    (deleteTodo { todos := [{ Id := 1, Text := "a", CreatedAt := 0, Done := false,
                              DoneAt := 0, Deleted := true, DeletedAt := 3 }],
                  latestTodoId := 1 } 1 9).2 = none ∧
    ∃ t2 ∈ (deleteTodo { todos := [{ Id := 1, Text := "a", CreatedAt := 0, Done := false,
                                     DoneAt := 0, Deleted := true, DeletedAt := 3 }],
                         latestTodoId := 1 } 1 9).1.todos,
      t2.Id = 1 ∧ t2.Deleted = true ∧ t2.DeletedAt = 9 :=
  deleteTodo_succeeds_when_stored
    { todos := [{ Id := 1, Text := "a", CreatedAt := 0, Done := false,
                  DoneAt := 0, Deleted := true, DeletedAt := 3 }],
      latestTodoId := 1 } 1 9
    ⟨{ Id := 1, Text := "a", CreatedAt := 0, Done := false,
       DoneAt := 0, Deleted := true, DeletedAt := 3 }, by simp, rfl⟩

theorem applyUpdate_Done (t : todo) (u : todoUpdate) (now : Nat) :
    (applyUpdate t u now).Done = (match u.done with | some d => d | none => t.Done) := by
  rcases u with ⟨ut, ud⟩
  cases ud with
  | none => cases ut <;> simp [applyUpdate]
  | some d => cases d <;> cases ut <;> simp [applyUpdate]

theorem applyUpdate_DoneAt (t : todo) (u : todoUpdate) (now : Nat) :
    (applyUpdate t u now).DoneAt =
      (match u.done with | some true => now | _ => t.DoneAt) := by
  rcases u with ⟨ut, ud⟩
  cases ud with
  | none => cases ut <;> simp [applyUpdate]
  | some d => cases d <;> cases ut <;> simp [applyUpdate]

theorem applyUpdate_Text (t : todo) (u : todoUpdate) (now : Nat) :
    (applyUpdate t u now).Text =
      (match u.text with | some txt => txt | none => t.Text) := by
  rcases u with ⟨ut, ud⟩
  cases ud with
  | none => cases ut <;> simp [applyUpdate]
  | some d => cases d <;> cases ut <;> simp [applyUpdate]

theorem updateTodoList_found (l : List todo) (id : Nat) (u : todoUpdate) (now : Nat)
    (t : todo) (hget : getTodoByIdList l id = Except.ok t) :
    ∃ ts2, updateTodoList l id u now = some (ts2, applyUpdate t u now) := by
  induction l with
  | nil => simp [getTodoByIdList] at hget
  | cons v vs ih =>
    by_cases h : v.Id = id
    · have hvt : v = t := by simpa [getTodoByIdList, h] using hget
      subst hvt
      exact ⟨applyUpdate v u now :: vs, by simp [updateTodoList, h]⟩
    · have hget2 : getTodoByIdList vs id = Except.ok t := by
        simpa [getTodoByIdList, h] using hget
      obtain ⟨ts2, hts2⟩ := ih hget2
      exact ⟨v :: ts2, by simp [updateTodoList, h, hts2]⟩

/-- C4 counterexample: a record with `Done=true, DoneAt=5` updated with
`done=true` at clock 7 does NOT keep its previous `DoneAt`: the stamp is
re-applied (the source stamps whenever the incoming done value is true,
not only on the false-to-true transition). -/
theorem updateTodo_restamps_doneAt_cex :
    ((updateTodo { todos := [{ Id := 1, Text := "a", CreatedAt := 0, Done := true,
                               DoneAt := 5, Deleted := false, DeletedAt := 0 }],
                   latestTodoId := 1 } 1 { text := none, done := some true } 7).1.todos.map
      todo.DoneAt) = [7] ∧
    ¬ ((updateTodo { todos := [{ Id := 1, Text := "a", CreatedAt := 0, Done := true,
                                 DoneAt := 5, Deleted := false, DeletedAt := 0 }],
                     latestTodoId := 1 } 1 { text := none, done := some true } 7).1.todos.map
      todo.DoneAt) = [5] := by
  constructor
  · rfl
  · decide

/-- C4 (amended): for every stored record, `update` with `done=true`
stamps `DoneAt` to the current time whenever it is applied — also when
the record was already done, so the previous `DoneAt` is overwritten —
and `update` with `done=false` (or with no done field) leaves `DoneAt`
unchanged; it is never cleared back to zero by an update. -/
theorem updateTodo_doneAt_semantics (s : inMemTodoService) (id : Nat) (u : todoUpdate)
    (now : Nat) (t : todo) (hget : getTodoById s id = Except.ok t) :
    ∃ t2, (updateTodo s id u now).2 = Except.ok t2 ∧
      t2.Done = (match u.done with | some d => d | none => t.Done) ∧
      t2.DoneAt = (match u.done with | some true => now | _ => t.DoneAt) := by
  obtain ⟨ts2, hts2⟩ := updateTodoList_found s.todos id u now t hget
  refine ⟨applyUpdate t u now, ?_, applyUpdate_Done t u now, applyUpdate_DoneAt t u now⟩
  simp [updateTodo, hts2]

/-- Witness for C4 (amended): toggling `done=false` at clock 9 on a done
record with `DoneAt=5` leaves `DoneAt=5`. -/
theorem updateTodo_doneAt_semantics_witness :
    ∃ t2, (updateTodo { todos := [{ Id := 1, Text := "a", CreatedAt := 0, Done := true,
                                    DoneAt := 5, Deleted := false, DeletedAt := 0 }],
                        latestTodoId := 1 } 1 { text := none, done := some false } 9).2 =
        Except.ok t2 ∧
      t2.Done = false ∧ t2.DoneAt = 5 :=
  updateTodo_doneAt_semantics
    { todos := [{ Id := 1, Text := "a", CreatedAt := 0, Done := true,
                  DoneAt := 5, Deleted := false, DeletedAt := 0 }],
      latestTodoId := 1 } 1 { text := none, done := some false } 9
    { Id := 1, Text := "a", CreatedAt := 0, Done := true,
      DoneAt := 5, Deleted := false, DeletedAt := 0 } rfl

/-- C6: the claim says `deleteMany(ids)` errors if and only if some
requested id is unmatched — but the source increments its `deleted`
counter on every (record, id) pair, not only on matches, so the check
compares `len(todos) * len(ids)` with `len(ids)`. With two stored
records (ids 1 and 2), requesting `[1]` — every requested id present —
still errors ("2 of 1"); with one stored record (id 1), requesting `[2]`
— nothing matched — succeeds. The error message "could not delete all
todos (%d of %d)" shows the counter was meant to count confirmed
deletions, so this is a slip in the code. -/
theorem deleteTodos_miscounts_matches :
    ((deleteTodos { todos := [{ Id := 1, Text := "a", CreatedAt := 0, Done := false,
                                DoneAt := 0, Deleted := false, DeletedAt := 0 },
                              { Id := 2, Text := "b", CreatedAt := 0, Done := false,
                                DoneAt := 0, Deleted := false, DeletedAt := 0 }],
                    latestTodoId := 2 } [1] 9).2 ≠ none) ∧
    (1 ∈ ({ todos := [{ Id := 1, Text := "a", CreatedAt := 0, Done := false,
                        DoneAt := 0, Deleted := false, DeletedAt := 0 },
                      { Id := 2, Text := "b", CreatedAt := 0, Done := false,
                        DoneAt := 0, Deleted := false, DeletedAt := 0 }],
            latestTodoId := 2 } : inMemTodoService).todos.map todo.Id) ∧
    ((deleteTodos { todos := [{ Id := 1, Text := "a", CreatedAt := 0, Done := false,
                                DoneAt := 0, Deleted := false, DeletedAt := 0 }],
                    latestTodoId := 1 } [2] 9).2 = none) ∧
    (2 ∉ ({ todos := [{ Id := 1, Text := "a", CreatedAt := 0, Done := false,
                        DoneAt := 0, Deleted := false, DeletedAt := 0 }],
            latestTodoId := 1 } : inMemTodoService).todos.map todo.Id) := by
  refine ⟨?_, by decide, by rfl, by decide⟩
  decide

theorem deleteTodosInner_Id (ids : List Nat) (t : todo) (now : Nat) :
    (deleteTodosInner t ids now).1.Id = t.Id := by
  induction ids generalizing t with
  | nil => rfl
  | cons id ids ih =>
    by_cases h : t.Id = id
    · simpa [deleteTodosInner, h] using ih { t with Deleted := true, DeletedAt := now }
    · simpa [deleteTodosInner, h] using ih t

theorem deleteTodosInner_Text (ids : List Nat) (t : todo) (now : Nat) :
    (deleteTodosInner t ids now).1.Text = t.Text := by
  induction ids generalizing t with
  | nil => rfl
  | cons id ids ih =>
    by_cases h : t.Id = id
    · simpa [deleteTodosInner, h] using ih { t with Deleted := true, DeletedAt := now }
    · simpa [deleteTodosInner, h] using ih t

theorem deleteTodosInner_preserve (ids : List Nat) (t : todo) (now : Nat)
    (hd : t.Deleted = true) (ha : t.DeletedAt = now) :
    (deleteTodosInner t ids now).1.Deleted = true ∧
    (deleteTodosInner t ids now).1.DeletedAt = now := by
  induction ids generalizing t with
  | nil => exact ⟨hd, ha⟩
  | cons id ids ih =>
    by_cases h : t.Id = id
    · simpa [deleteTodosInner, h] using
        ih { t with Deleted := true, DeletedAt := now } rfl rfl
    · simpa [deleteTodosInner, h] using ih t hd ha

theorem deleteTodosInner_marks (ids : List Nat) (t : todo) (now : Nat)
    (hmem : t.Id ∈ ids) :
    (deleteTodosInner t ids now).1.Deleted = true ∧
    (deleteTodosInner t ids now).1.DeletedAt = now := by
  induction ids generalizing t with
  | nil => cases hmem
  | cons id ids ih =>
    by_cases h : t.Id = id
    · simpa [deleteTodosInner, h] using
        deleteTodosInner_preserve ids { t with Deleted := true, DeletedAt := now } now rfl rfl
    · have hmem2 : t.Id ∈ ids := by
        rcases List.mem_cons.mp hmem with heq | htail
        · exact absurd heq h
        · exact htail
      simpa [deleteTodosInner, h] using ih t hmem2

theorem deleteTodosLoop_mem (l : List todo) (ids : List Nat) (now : Nat) :
    ∀ x ∈ (deleteTodosLoop l ids now).1, ∃ v ∈ l, x = (deleteTodosInner v ids now).1 := by
  induction l with
  | nil => intro x hx; simp [deleteTodosLoop] at hx
  | cons t ts ih =>
    intro x hx
    simp only [deleteTodosLoop] at hx
    rcases List.mem_cons.mp hx with heq | htail
    · exact ⟨t, List.mem_cons_self t ts, heq⟩
    · obtain ⟨v, hv, hxv⟩ := ih x htail
      exact ⟨v, List.mem_cons_of_mem t hv, hxv⟩

/-- C10: `deleteMany` is not atomic on error: whenever it returns its
count-mismatch error, every record in the resulting store whose id
appears in the requested list has nevertheless been marked
`Deleted=true` with `DeletedAt` stamped to the current time — the store
is mutated even on the error path (the marking loop runs before the
count check and is kept either way). -/
theorem deleteTodos_mutates_on_error (s : inMemTodoService) (ids : List Nat) (now : Nat)
    (herr : (deleteTodos s ids now).2 ≠ none) :
    ∀ t ∈ (deleteTodos s ids now).1.todos, t.Id ∈ ids →
      t.Deleted = true ∧ t.DeletedAt = now := by
  intro t ht hid
  have hmem : ∃ v ∈ s.todos, t = (deleteTodosInner v ids now).1 := by
    apply deleteTodosLoop_mem s.todos ids now t
    simpa [deleteTodos] using ht
  obtain ⟨v, _, rfl⟩ := hmem
  have hvid : v.Id ∈ ids := by
    rwa [deleteTodosInner_Id] at hid
  exact deleteTodosInner_marks ids v now hvid

/-- Witness for C10: with records 1 and 2 stored and request `[1]`,
`deleteMany` errors (the counter reads 2 of 1), yet the record with id 1
is found marked deleted with `DeletedAt=9` in the post-state. -/
theorem deleteTodos_mutates_on_error_witness :
    ({ Id := 1, Text := "a", CreatedAt := 0, Done := false,
       DoneAt := 0, Deleted := true, DeletedAt := 9 } : todo).Deleted = true ∧
    ({ Id := 1, Text := "a", CreatedAt := 0, Done := false,
       DoneAt := 0, Deleted := true, DeletedAt := 9 } : todo).DeletedAt = 9 :=
  deleteTodos_mutates_on_error
    { todos := [{ Id := 1, Text := "a", CreatedAt := 0, Done := false,
                  DoneAt := 0, Deleted := false, DeletedAt := 0 },
                { Id := 2, Text := "b", CreatedAt := 0, Done := false,
                  DoneAt := 0, Deleted := false, DeletedAt := 0 }],
      latestTodoId := 2 } [1] 9 (by decide)
    { Id := 1, Text := "a", CreatedAt := 0, Done := false,
      DoneAt := 0, Deleted := true, DeletedAt := 9 } (by decide) (by decide)

/-- A store operation, for stating properties of arbitrary sequences of
calls against the service. -/
inductive storeOp where
  | create (txt : String) (now : Nat)
  | update (id : Nat) (u : todoUpdate) (now : Nat)
  | del (id : Nat) (now : Nat)
  | delMany (ids : List Nat) (now : Nat)
deriving DecidableEq, Repr

/-- The state reached after one store operation (results discarded). -/
def applyOp (s : inMemTodoService) : storeOp → inMemTodoService
  | storeOp.create txt now => (createTodo s txt now).1
  | storeOp.update id u now => (updateTodo s id u now).1
  | storeOp.del id now => (deleteTodo s id now).1
  | storeOp.delMany ids now => (deleteTodos s ids now).1

/-- The state reached after a sequence of store operations. -/
def applyOps (s : inMemTodoService) (ops : List storeOp) : inMemTodoService :=
  ops.foldl applyOp s

/-- An operation never writes an empty text: always true except for an
update whose text field is set to the empty string. -/
def opTextOk : storeOp → Bool
  | storeOp.update _ u _ =>
    match u.text with
    | some txt => txt != ""
    | none => true
  | _ => true

/-- C7 counterexample: starting from an empty store, `create "a"` then
`update` with `text=""` leaves a stored record whose text is empty — the
update path stores the incoming text verbatim with no validation, so the
non-empty-text invariant does not survive arbitrary update operations. -/
theorem text_nonempty_invariant_cex :
    ((applyOps { todos := [], latestTodoId := 0 }
        [storeOp.create "a" 0,
         storeOp.update 1 { text := some "", done := none } 1]).todos.map
      todo.Text) = [""] := by
  rfl

theorem createTodo_texts (s : inMemTodoService) (txt : String) (now : Nat)
    (hs : ∀ t ∈ s.todos, t.Text ≠ "") :
    ∀ t ∈ (createTodo s txt now).1.todos, t.Text ≠ "" := by
  intro t ht
  by_cases he : trimSpace txt = ""
  · simp [createTodo, he] at ht
    exact hs t ht
  · simp [createTodo, he] at ht
    rcases ht with hmem | heq
    · exact hs t hmem
    · subst heq
      simpa using he

theorem updateTodoList_elements (l : List todo) (id : Nat) (u : todoUpdate) (now : Nat)
    (ts2 : List todo) (r : todo) (h : updateTodoList l id u now = some (ts2, r)) :
    ∀ x ∈ ts2, x ∈ l ∨ ∃ v ∈ l, x = applyUpdate v u now := by
  induction l generalizing ts2 r with
  | nil => simp [updateTodoList] at h
  | cons t ts ih =>
    by_cases hh : t.Id = id
    · simp only [updateTodoList, hh, if_true, Option.some.injEq, Prod.mk.injEq] at h
      obtain ⟨hts2, _⟩ := h
      subst hts2
      intro x hx
      rcases List.mem_cons.mp hx with heq | htail
      · exact Or.inr ⟨t, List.mem_cons_self t ts, heq⟩
      · exact Or.inl (List.mem_cons_of_mem t htail)
    · cases hrec : updateTodoList ts id u now with
      | none => simp [updateTodoList, hh, hrec] at h
      | some p =>
        obtain ⟨ts2', r'⟩ := p
        simp only [updateTodoList, hh, if_false, hrec, Option.some.injEq,
          Prod.mk.injEq] at h
        obtain ⟨hts2, _⟩ := h
        subst hts2
        intro x hx
        rcases List.mem_cons.mp hx with heq | htail
        · exact Or.inl (heq ▸ List.mem_cons_self t ts)
        · rcases ih ts2' r' hrec x htail with hin | ⟨v, hv, hxv⟩
          · exact Or.inl (List.mem_cons_of_mem t hin)
          · exact Or.inr ⟨v, List.mem_cons_of_mem t hv, hxv⟩

theorem updateTodo_texts (s : inMemTodoService) (id : Nat) (u : todoUpdate) (now : Nat)
    (hop : opTextOk (storeOp.update id u now) = true)
    (hs : ∀ t ∈ s.todos, t.Text ≠ "") :
    ∀ t ∈ (updateTodo s id u now).1.todos, t.Text ≠ "" := by
  cases hm : updateTodoList s.todos id u now with
  | none =>
    intro t ht
    simp only [updateTodo, hm] at ht
    exact hs t ht
  | some p =>
    obtain ⟨ts2, r⟩ := p
    intro t ht
    simp only [updateTodo, hm] at ht
    rcases updateTodoList_elements s.todos id u now ts2 r hm t ht with hin | ⟨v, hv, hxv⟩
    · exact hs t hin
    · subst hxv
      rw [applyUpdate_Text]
      cases hut : u.text with
      | none => simpa using hs v hv
      | some txt =>
        simp only [opTextOk, hut] at hop
        simpa using hop

theorem deleteTodoList_elements (l : List todo) (id : Nat) (now : Nat)
    (ts2 : List todo) (h : deleteTodoList l id now = some ts2) :
    ∀ x ∈ ts2, ∃ v ∈ l, x.Text = v.Text := by
  induction l generalizing ts2 with
  | nil => simp [deleteTodoList] at h
  | cons t ts ih =>
    by_cases hh : t.Id = id
    · simp only [deleteTodoList, hh, if_true, Option.some.injEq] at h
      subst h
      intro x hx
      rcases List.mem_cons.mp hx with heq | htail
      · exact ⟨t, List.mem_cons_self t ts, by simp [heq]⟩
      · exact ⟨x, List.mem_cons_of_mem t htail, rfl⟩
    · cases hrec : deleteTodoList ts id now with
      | none => simp [deleteTodoList, hh, hrec] at h
      | some ts2' =>
        simp only [deleteTodoList, hh, if_false, hrec, Option.some.injEq] at h
        subst h
        intro x hx
        rcases List.mem_cons.mp hx with heq | htail
        · exact ⟨t, List.mem_cons_self t ts, by simp [heq]⟩
        · obtain ⟨v, hv, hxv⟩ := ih ts2' hrec x htail
          exact ⟨v, List.mem_cons_of_mem t hv, hxv⟩

theorem deleteTodo_texts (s : inMemTodoService) (id : Nat) (now : Nat)
    (hs : ∀ t ∈ s.todos, t.Text ≠ "") :
    ∀ t ∈ (deleteTodo s id now).1.todos, t.Text ≠ "" := by
  cases hm : deleteTodoList s.todos id now with
  | none =>
    intro t ht
    simp only [deleteTodo, hm] at ht
    exact hs t ht
  | some ts2 =>
    intro t ht
    simp only [deleteTodo, hm] at ht
    obtain ⟨v, hv, hxv⟩ := deleteTodoList_elements s.todos id now ts2 hm t ht
    rw [hxv]
    exact hs v hv

theorem deleteTodos_texts (s : inMemTodoService) (ids : List Nat) (now : Nat)
    (hs : ∀ t ∈ s.todos, t.Text ≠ "") :
    ∀ t ∈ (deleteTodos s ids now).1.todos, t.Text ≠ "" := by
  intro t ht
  have ht2 : t ∈ (deleteTodosLoop s.todos ids now).1 := by
    simpa [deleteTodos] using ht
  obtain ⟨v, hv, hxv⟩ := deleteTodosLoop_mem s.todos ids now t ht2
  rw [hxv, deleteTodosInner_Text]
  exact hs v hv

theorem applyOp_texts (s : inMemTodoService) (op : storeOp)
    (hop : opTextOk op = true) (hs : ∀ t ∈ s.todos, t.Text ≠ "") :
    ∀ t ∈ (applyOp s op).todos, t.Text ≠ "" := by
  cases op with
  | create txt now => exact createTodo_texts s txt now hs
  | update id u now => exact updateTodo_texts s id u now hop hs
  | del id now => exact deleteTodo_texts s id now hs
  | delMany ids now => exact deleteTodos_texts s ids now hs

/-- C7 (amended): the non-empty-text invariant is preserved by create
(which trims and rejects empty text), delete and deleteMany (which do
not touch text), and by every update whose text field, when set, is
non-empty; an update with an empty text field breaks it, since the
update path performs no validation. -/
theorem text_nonempty_invariant : ∀ (ops : List storeOp) (s : inMemTodoService),
    (∀ t ∈ s.todos, t.Text ≠ "") → (∀ op ∈ ops, opTextOk op = true) →
    ∀ t ∈ (applyOps s ops).todos, t.Text ≠ "" := by
  intro ops
  induction ops with
  | nil =>
    intro s hs _
    exact hs
  | cons op ops ih =>
    intro s hs hops
    exact ih (applyOp s op)
      (applyOp_texts s op (hops op (List.mem_cons_self op ops)) hs)
      (fun o ho => hops o (List.mem_cons_of_mem op ho))

/-- Witness for C7 (amended): a create followed by a non-empty text
update, a delete and a deleteMany, starting from the empty store, leaves
the surviving record with non-empty text `"b"`. -/
theorem text_nonempty_invariant_witness :
    ({ Id := 1, Text := "b", CreatedAt := 0, Done := false, DoneAt := 0,
       Deleted := true, DeletedAt := 3 } : todo).Text ≠ "" :=
  text_nonempty_invariant
    [storeOp.create "  b  " 0,
     storeOp.update 1 { text := some "b", done := none } 1,
     storeOp.del 1 2,
     storeOp.delMany [1] 3]
    { todos := [], latestTodoId := 0 }
    (by simp) (by decide)
    { Id := 1, Text := "b", CreatedAt := 0, Done := false, DoneAt := 0,
      Deleted := true, DeletedAt := 3 } (by decide)

/-- The match of the anchored pattern `^/todos/(\d+)/` of `extractTodoId`
against a path: the capture group (a maximal non-empty run of ASCII
digits after the `/todos/` prefix, followed by `/`), or `none` when the
pattern does not match (Go's `FindStringSubmatch` returns `nil` then). -/
def pathMatch (path : String) : Option (List Char) :=
  match path.toList with
  | '/' :: 't' :: 'o' :: 'd' :: 'o' :: 's' :: '/' :: rest =>
    match rest.takeWhile Char.isDigit, rest.dropWhile Char.isDigit with
    | [], _ => none
    | ds, '/' :: _ => some ds
    | _, _ => none
  | _ => none

/-- `strconv.ParseUint`'s value of a digit string. -/
def digitsToNat (ds : List Char) : Nat :=
  ds.foldl (fun acc c => acc * 10 + (c.toNat - 48)) 0

/-- The observable outcome of `extractTodoId`: a parsed id, a returned
error (`strconv.ParseUint` range error on a value exceeding `uint64`),
or a runtime panic. -/
inductive ExtractResult where
  | ok (id : Nat)
  | err
  | panicked
deriving DecidableEq, Repr

/-- `extractTodoId`: on a path matching `^/todos/(\d+)/` it parses the
captured digits with `strconv.ParseUint(_, 10, 64)`; on a non-matching
path `FindStringSubmatch` returns `nil` and the source indexes
`matches[1]` unconditionally, which panics (index out of range). -/
def extractTodoId (path : String) : ExtractResult :=
  match pathMatch path with
  | none => ExtractResult.panicked
  | some ds =>
    if digitsToNat ds < 2 ^ 64 then ExtractResult.ok (digitsToNat ds)
    else ExtractResult.err

/-- C9 counterexample: `extractTodoId` is not total on arbitrary paths —
on the path `"/foo"`, which does not match `/todos/{numeric-id}/`, it
neither returns an id nor an error but faults (nil-slice index panic). -/
theorem extractTodoId_panics_cex :
    extractTodoId "/foo" = ExtractResult.panicked := by
  rfl

/-- C9 (amended): `extractTodoId` panics exactly on the paths that do
not match the `/todos/{numeric-id}/` pattern; on every matching path it
is total and error-signalling — it returns the parsed id, or an error
when the numeral overflows `uint64`, and never yields a silent
default. -/
theorem extractTodoId_total_on_matching (path : String) :
    (extractTodoId path = ExtractResult.panicked ↔ pathMatch path = none) ∧
    (∀ ds, pathMatch path = some ds → digitsToNat ds < 2 ^ 64 →
      extractTodoId path = ExtractResult.ok (digitsToNat ds)) ∧
    (∀ ds, pathMatch path = some ds → 2 ^ 64 ≤ digitsToNat ds →
      extractTodoId path = ExtractResult.err) := by
  have h64 : (2 : Nat) ^ 64 = 18446744073709551616 := by norm_num
  refine ⟨?_, ?_, ?_⟩
  · cases hm : pathMatch path with
    | none => simp [extractTodoId, hm]
    | some ds =>
      simp only [extractTodoId, hm]
      by_cases hlt : digitsToNat ds < 2 ^ 64
      · rw [h64] at hlt
        simp [hlt]
      · rw [h64] at hlt
        simp [hlt]
  · intro ds hm hlt
    rw [h64] at hlt
    simp [extractTodoId, hm, hlt]
  · intro ds hm hge
    have hnlt : ¬ digitsToNat ds < 18446744073709551616 := by
      rw [← h64]
      exact not_lt.mpr hge
    simp [extractTodoId, hm, hnlt]

/-- Witness for C9 (amended): the path `"/todos/42/"` matches and the id
42 is returned. -/
theorem extractTodoId_total_on_matching_witness :
    extractTodoId "/todos/42/" = ExtractResult.ok (digitsToNat ['4', '2']) :=
  (extractTodoId_total_on_matching "/todos/42/").2.1 ['4', '2'] (by rfl) (by decide)
